import Mathlib

/-
Verification of the reference-consistent image rewrite pipeline of
`optimize-course-images` (Open edX course image optimizer).

The Python sources are shallowly embedded: strings are lists of characters
(`Str`), JSON documents are an inductive `Json` type whose objects are
insertion-ordered key/value lists with Python-dict overwrite semantics,
and the orchestrator's per-course state is an explicit `CourseState`
record.  Fallible operations thread an `Option Str` error component, so
that partial effects performed before an exception are preserved exactly
as they are in the Python code.
-/

set_option autoImplicit false

namespace CourseImages

/-- Strings are modelled as lists of characters. -/
abbrev Str := List Char

/-- Python `str.lower()` (ASCII-relevant part, `Char.toLower`). -/
def toLowerStr (s : Str) : Str := s.map Char.toLower

/-- The `'@'` to `'_'` display-name transform used by the asset registry
(`key.replace('@', '_')` in spirit; only `'@'` is rewritten). -/
def atToUnderscore (s : Str) : Str :=
  s.map (fun c => if c == '@' then '_' else c)

/-- Python `needle in hay` substring test. -/
def hasSubstring (hay needle : Str) : Bool :=
  match hay with
  | [] => needle.isEmpty
  | c :: t => needle.isPrefixOf (c :: t) || hasSubstring t needle

/-- Python `s.startswith('.')`. -/
def startsWithDot (s : Str) : Bool :=
  match s with
  | [] => false
  | c :: _ => c == '.'

/-- Python `s.endswith(suffix)`. -/
def strEndsWith (s suffix : Str) : Bool := suffix.isSuffixOf s

/-- Scanner for `listReplace`.  `skip` counts characters still to be
consumed silently after an occurrence of `old` was replaced (so the scan
resumes past the matched text, making replacements non-overlapping). -/
def replGo (old new : Str) : Nat → Str → Str
  | _ + 1, [] => []
  | k + 1, _ :: t => replGo old new k t
  | 0, [] => []
  | 0, c :: t =>
    if old ≠ [] ∧ old.isPrefixOf (c :: t) = true then
      new ++ replGo old new (old.length - 1) t
    else
      c :: replGo old new 0 t

/-- Python `s.replace(old, new)` for a nonempty `old`: replaces every
non-overlapping occurrence, scanning left to right.  (All call sites in the
sources pass a nonempty `old`; an empty `old` is treated as matching
nowhere.) -/
def listReplace (old new : Str) (s : Str) : Str := replGo old new 0 s

-- String literals appearing in the sources.

def dotPngLit : Str := ".png".data

def dotJpgLit : Str := ".jpg".data

def dotJpegLit : Str := ".jpeg".data

def dashPngJpgLit : Str := "-png.jpg".data

def imagePngLit : Str := "image/png".data

def imageJpegLit : Str := "image/jpeg".data

def assetsJsonLit : Str := "assets.json".data

def jpegFmtLit : Str := "jpeg".data

def dotTxtLit : Str := ".txt".data

def dotMdLit : Str := ".md".data

def dotHtmlLit : Str := ".html".data

def dotJsonLit : Str := ".json".data

def dotXmlLit : Str := ".xml".data

/-- Python `os.path.splitext(path)[0]` for the flat static file names the
traversal feeds it (non-hidden names, so the leading-dot special case of
`splitext` does not arise): everything before the last `'.'`, or the whole
name when it has no `'.'`. -/
def splitextBase (s : Str) : Str :=
  if s.reverse.any (fun c => c == '.') then
    ((s.reverse.dropWhile (fun c => c != '.')).drop 1).reverse
  else s

example : splitextBase ( "photo.png".data) = "photo".data := by decide

example : splitextBase ( "a.b.jpg".data) = "a.b".data := by decide

example : listReplace ( "photo.png".data) ( "photo.jpg".data) ( "see photo.png here".data)
    = "see photo.jpg here".data := by decide

example : listReplace ( "photo.png".data) ( "photo.jpg".data) ( "see PHOTO.PNG here".data)
    = "see PHOTO.PNG here".data := by decide

example : listReplace ( "-png.jpg".data) ( ".jpg".data) ( "-png-png.jpg".data)
    = "-png.jpg".data := by decide

example : hasSubstring ( "gg.jpgg.png".data) ( "gg.png".data) = true := by decide

example : atToUnderscore ( "photo@2x.jpg".data) = "photo_2x.jpg".data := by decide

/-! ## JSON documents (`utils/json_handlers.py`)

Parsed JSON values.  Objects are insertion-ordered key/value lists, as
produced by Python's `json.load` into a `dict`; helper operations below
reproduce `dict` semantics (lookup of the first matching key, overwrite
keeping the original position, append for a fresh key). -/

inductive Json where
  | str : Str → Json
  | num : Int → Json
  | bool : Bool → Json
  | null : Json
  | arr : List Json → Json
  | obj : List (Str × Json) → Json

/-- Python `key in d` for a dict modelled as a key/value list. -/
def dictHasKey (m : List (Str × Json)) (k : Str) : Bool :=
  m.any (fun p => p.1 == k)

/-- Python `d[k] = v`: overwrite the value of an existing key in place,
append a fresh key at the end. -/
def dictInsert (m : List (Str × Json)) (k : Str) (v : Json) : List (Str × Json) :=
  if dictHasKey m k then
    m.map (fun p => if p.1 == k then (p.1, v) else p)
  else
    m ++ [(k, v)]

/-- Build a Python dict from an iteration of key/value pairs (the semantics
of a dict comprehension: later duplicate keys overwrite earlier ones). -/
def dictOfPairs (ps : List (Str × Json)) : List (Str × Json) :=
  ps.foldl (fun acc p => dictInsert acc p.1 p.2) []

/-- Python `d.get(k)`-style lookup (first matching key). -/
def dictLookup (m : List (Str × Json)) (k : Str) : Option Json :=
  (m.find? (fun p => p.1 == k)).map Prod.snd

/-- Embeds `delete_key_from_json` (json_handlers.py, lines 10-35) acting on
the parsed top-level mapping: if the key is present it is removed and the
document rewritten; otherwise the document is left alone (a warning is
logged). -/
def delete_key_from_json (m : List (Str × Json)) (k : Str) : List (Str × Json) :=
  if dictHasKey m k then m.filter (fun p => p.1 != k) else m

mutual

/-- Embeds `replace_recursive` inside `find_and_replace_in_json`
(json_handlers.py, lines 56-65): every string leaf is rewritten with
`re.sub(pattern, replacement, value)`.  Every pattern passed by the
orchestrator is a regex-escaped literal, so the substitution is exactly a
literal left-to-right replace of that string. -/
def replace_recursive (pat rep : Str) : Json → Json
  | .str s => .str (listReplace pat rep s)
  | .num n => .num n
  | .bool b => .bool b
  | .null => .null
  | .arr xs => .arr (replaceRecursiveArr pat rep xs)
  | .obj ps => .obj (replaceRecursiveObj pat rep ps)

/-- Array part of `replace_recursive`. -/
def replaceRecursiveArr (pat rep : Str) : List Json → List Json
  | [] => []
  | x :: xs => replace_recursive pat rep x :: replaceRecursiveArr pat rep xs

/-- Object part of `replace_recursive`: keys are untouched, values are
rewritten in place. -/
def replaceRecursiveObj (pat rep : Str) : List (Str × Json) → List (Str × Json)
  | [] => []
  | (k, v) :: ps => (k, replace_recursive pat rep v) :: replaceRecursiveObj pat rep ps

end

/-- Embeds `find_and_replace_in_json` (json_handlers.py, lines 37-74) on a
loaded document: apply `replace_recursive` and write the result back. -/
def find_and_replace_in_json (doc : Json) (pat rep : Str) : Json :=
  replace_recursive pat rep doc

/-- Embeds `find_and_replace_in_json` applied to the asset registry file,
whose top level is an object: each value is rewritten, keys stay. -/
def find_and_replace_in_assets (m : List (Str × Json)) (pat rep : Str) :
    List (Str × Json) :=
  replaceRecursiveObj pat rep m

mutual

/-- Embeds `replace_keys_recursive` inside `replace_json_keys`
(json_handlers.py, lines 95-100): dicts are rebuilt by a comprehension
whose keys are `k.replace(find_str, replace_str)` — so two sibling keys
that collide after the replacement are merged, the later value winning. -/
def replace_keys_recursive (fs rs : Str) : Json → Json
  | .str s => .str s
  | .num n => .num n
  | .bool b => .bool b
  | .null => .null
  | .arr xs => .arr (replaceKeysArr fs rs xs)
  | .obj ps => .obj (dictOfPairs (replaceKeysPairs fs rs ps))

/-- Array part of `replace_keys_recursive`. -/
def replaceKeysArr (fs rs : Str) : List Json → List Json
  | [] => []
  | x :: xs => replace_keys_recursive fs rs x :: replaceKeysArr fs rs xs

/-- Pair part of `replace_keys_recursive`: the raw comprehension items, in
iteration order, before dict construction merges duplicate keys. -/
def replaceKeysPairs (fs rs : Str) : List (Str × Json) → List (Str × Json)
  | [] => []
  | (k, v) :: ps =>
    (listReplace fs rs k, replace_keys_recursive fs rs v) :: replaceKeysPairs fs rs ps

end

/-- Embeds `replace_json_keys` (json_handlers.py, lines 76-109) on the
asset registry's top-level mapping. -/
def replace_json_keys (m : List (Str × Json)) (fs rs : Str) : List (Str × Json) :=
  dictOfPairs (replaceKeysPairs fs rs m)

example :
    replace_json_keys [( "a.png".data, Json.str ( "1".data)), ( "a.jpg".data, Json.str ( "2".data))]
      dotPngLit dotJpgLit = [( "a.jpg".data, Json.str ( "2".data))] := by rfl

/-! ## Logical-name resolution (Reference Index, part 1)

The orchestrator (optimize-course-images.py, lines 79-82) calls
`ujh.find_parent_key(assets_json_path, file)`, but `utils/json_handlers.py`
contains no definition of `find_parent_key`; only this call site exists in
the sources. -/

/-- Modelled from the spec: `find_parent_key` / `resolveLogicalName` is
invoked by the orchestrator on `policies/assets.json` but is missing from
the sources.  Per the spec, given the on-disk filename (which already has
`_`), it finds the registry key whose own `@` to `_` transform equals the
on-disk name and returns that original key with `@` intact; if no such key
exists it returns the on-disk filename unchanged. -/
def find_parent_key (registry : List (Str × Json)) (file : Str) : Str :=
  match registry.find? (fun kv => atToUnderscore kv.1 == file) with
  | some kv => kv.1
  | none => file

/-! ## Reference scan (`utils/file_handlers.py`, `search_image_in_files`) -/

/-- One text-bearing file of the course tree, as seen by the directory
walk: directory part, base name, and its content — `none` when the file
cannot be read as UTF-8 text (the scan logs such files and skips them). -/
structure FileEntry where
  dir : Str
  name : Str
  content : Option Str
  deriving DecidableEq

/-- Python `os.path.join(root, file)` for a walk entry. -/
def entryPath (e : FileEntry) : Str := e.dir ++ e.name

/-- The fixed text-format allow-list of `search_image_in_files`
(file_handlers.py, line 64), checked against the lowercased name. -/
def isTextFileName (lowerName : Str) : Bool :=
  strEndsWith lowerName dotTxtLit || strEndsWith lowerName dotMdLit ||
    strEndsWith lowerName dotHtmlLit || strEndsWith lowerName dotJsonLit ||
    strEndsWith lowerName dotXmlLit

/-- Loop body of `search_image_in_files` (file_handlers.py, lines 52-71):
skip `assets.json` (case-insensitively) and hidden files; for names on the
text allow-list, read the content and do a case-insensitive substring
search for the image name; an unreadable file is logged and skipped. -/
def searchStep (image_name : Str) (acc : List Str) (e : FileEntry) : List Str :=
  if toLowerStr e.name == assetsJsonLit then acc
  else if startsWithDot (toLowerStr e.name) then acc
  else if isTextFileName (toLowerStr e.name) then
    match e.content with
    | none => acc
    | some c =>
      if hasSubstring (toLowerStr c) (toLowerStr image_name) then
        acc ++ [entryPath e]
      else acc
  else acc

/-- Embeds `search_image_in_files` (file_handlers.py, lines 40-73): fold
`searchStep` over the walk of the course tree, collecting the matching
file paths in walk order (an empty result means the image is unused). -/
def search_image_in_files (image_name : Str) (files : List FileEntry) : List Str :=
  files.foldl (searchStep image_name) []

/-! ## Image transcoding (`utils/img_handlers.py`, `optimize_image`)

The resize height is computed by Python as `int(img.height * (1400 / img.width))`
in IEEE-754 binary64 (double) arithmetic.  That arithmetic is embedded
bit-exactly below with plain natural-number operations: `flRat` rounds a
positive rational to the nearest double (53 significant bits, ties to
even), and `pyResizeHeight` chains the two rounded operations and the
final truncation exactly as CPython evaluates the expression. -/

/-- Round-half-to-even integer rounding of `N / D` (`D ≥ 1`). -/
def rndNE (N D : Nat) : Nat :=
  let q := N / D
  let r := N % D
  if 2 * r < D then q
  else if D < 2 * r then q + 1
  else if q % 2 = 0 then q else q + 1

/-- Fuel-driven floor of the base-2 logarithm (structural recursion, so the
kernel can evaluate it inside `decide`). -/
def natLog2Aux : Nat → Nat → Nat
  | 0, _ => 0
  | fuel + 1, n => if n ≤ 1 then 0 else natLog2Aux fuel (n / 2) + 1

/-- `⌊log₂ n⌋` for `n ≥ 1` (0 at 0). -/
def natLog2 (n : Nat) : Nat := natLog2Aux n n

/-- `⌊log₂ (a / b)⌋` of a positive rational, as an integer (negative when
`a < b`): the unique `k` with `2 ^ k ≤ a / b < 2 ^ (k + 1)`. -/
def ilog2Rat (a b : Nat) : Int :=
  if b ≤ a then Int.ofNat (natLog2 (a / b))
  else
    let L := natLog2 (b / a)
    if b ≤ a * 2 ^ L then -(Int.ofNat L) else -(Int.ofNat (L + 1))

/-- IEEE-754 binary64 rounding of the non-negative rational `a / b`
(`b ≥ 1`), returned as an exact rational: numerator and power-of-two
denominator.  The value is rounded to 53 significant bits, nearest, ties
to even — the rounding CPython's float division and multiplication
perform.  (Normal range only; the dimensions the transcoder feeds in never
reach the sub-normal or overflow thresholds.) -/
def flRat (a b : Nat) : Nat × Nat :=
  if a = 0 then (0, 1)
  else
    let e : Int := ilog2Rat a b - 52
    if 0 ≤ e then
      (rndNE a (b * 2 ^ e.toNat) * 2 ^ e.toNat, 1)
    else
      (rndNE (a * 2 ^ (-e).toNat) b, 2 ^ (-e).toNat)

/-- Bit-exact model of Python's `int(h * (1400 / w))` (img_handlers.py,
line 59): `1400 / w` is true division yielding a correctly rounded double,
`h` is converted to a double, the product is rounded once more, and `int`
truncates toward zero. -/
def pyResizeHeight (h w : Nat) : Nat :=
  let hf := flRat h 1
  let q := flRat 1400 w
  let p := flRat (hf.1 * q.1) (hf.2 * q.2)
  p.1 / p.2

example : pyResizeHeight 3 2800 = 1 := by decide

example : pyResizeHeight 1401 1401 = 1400 := by decide

example : pyResizeHeight 553 1580 = 489 := by decide

example : (553 * 1400) / 1580 = 490 := by decide

/-- The aspects of a raster image that the transcoder manipulates: pixel
dimensions, encoded format, and the fixed-policy encoding settings. -/
structure ImageModel where
  width : Nat
  height : Nat
  format : Str
  stripped : Bool
  progressive : Bool
  quality : Nat
  sampling420 : Bool
  dpi : Nat
  dctFloat : Bool
  deriving DecidableEq

/-- Embeds the in-memory normalization of `optimize_image`
(img_handlers.py, lines 39-78): strip metadata, progressive interlace,
quality 80, 4:2:0 sampling, 72 dpi; if the pixel width exceeds 1400,
resize to width 1400 and height `int(height * (1400 / width))` computed
from the original dimensions in double arithmetic (`pyResizeHeight`, a
bit-exact binary64 model); then re-encode as JPEG, the later `magick`
subprocess adding the float DCT method. -/
def optimize_image (img : ImageModel) : ImageModel :=
  let img1 : ImageModel :=
    { img with stripped := true, progressive := true, quality := 80,
               sampling420 := true, dpi := 72 }
  let img2 : ImageModel :=
    if 1400 < img1.width then
      { img1 with width := 1400, height := pyResizeHeight img1.height img1.width }
    else img1
  { img2 with format := jpegFmtLit, dctFloat := true }

example : (optimize_image ⟨2800, 3, dotPngLit, false, false, 0, false, 0, false⟩).height = 1 := by
  decide

example : (optimize_image ⟨1401, 1401, dotPngLit, false, false, 0, false, 0, false⟩).width = 1400 := by
  decide

/-- File-system effect of `optimize_image` (img_handlers.py, lines 66-85) on
the static image pool: the normalized image is saved at
`splitext(path)[0] + ".jpg"` (overwriting an existing file of that name),
and the original file is removed afterwards unless its name already ends in
`.jpg`/`.jpeg` (case-insensitively).  When the image cannot be opened the
exception is caught inside `optimize_image` itself and nothing changes. -/
def optimize_image_fs (images : List (Str × ImageModel)) (path : Str) :
    List (Str × ImageModel) :=
  match images.find? (fun p => p.1 == path) with
  | none => images
  | some pr =>
    let out := splitextBase path ++ dotJpgLit
    let img2 := optimize_image pr.2
    let written :=
      if images.any (fun p => p.1 == out) then
        images.map (fun p => if p.1 == out then (p.1, img2) else p)
      else images ++ [(out, img2)]
    if strEndsWith (toLowerStr path) dotJpgLit || strEndsWith (toLowerStr path) dotJpegLit then
      written
    else written.filter (fun p => p.1 != path)

/-! ## Course Rewrite Orchestrator (`optimize-course-images.py`) -/

def writeErrLit : Str := "could not write usage file".data

def removeErrLit : Str := "could not remove image file".data

/-- Per-course working state: the static image pool (name and image data),
the text-bearing content files, the parsed Asset Registry
(`policies/assets.json`, top-level mapping), the parsed Policy Document,
the set of paths on which a write/remove raises an `OSError` (the I/O
fault model), and the per-course error log. -/
structure CourseState where
  staticImages : List (Str × ImageModel)
  files : List FileEntry
  assets : List (Str × Json)
  policy : Json
  failingPaths : List Str
  errorLog : List Str

/-- The reference-rewrite loop of the orchestrator (lines 92-97): for each
referencing file in turn, read it, apply the literal (case-sensitive)
`content.replace(file, new_file_name)`, and write it back.  A failing
write raises, aborting the loop — files already rewritten stay rewritten,
exactly as in Python. -/
def rewrite_usages (files : List FileEntry) (failing : List Str) (old new : Str) :
    List Str → List FileEntry × Option Str
  | [] => (files, none)
  | p :: rest =>
    if failing.contains p then (files, some writeErrLit)
    else
      rewrite_usages
        (files.map (fun e =>
          if entryPath e == p then
            { e with content := e.content.map (listReplace old new) }
          else e))
        failing old new rest

/-- The body of the per-image `try` block (optimize-course-images.py,
lines 73-110): resolve the registry key, query references, then either
transcode and propagate the rename (used) or remove the file and its
registry key (unused).  The second component is the exception raised, if
any; the first is the state reached (partial effects included). -/
def try_optimize_one (st : CourseState) (name : Str) : CourseState × Option Str :=
  let file := find_parent_key st.assets name
  let found := search_image_in_files file st.files
  if found.isEmpty then
    -- unused: os.remove(image_path), then delete the key from assets.json
    if st.failingPaths.contains name then (st, some removeErrLit)
    else
      let st1 := { st with staticImages := st.staticImages.filter (fun p => p.1 != name) }
      ({ st1 with assets := delete_key_from_json st1.assets file }, none)
  else
    -- used: convert to JPEG, then rewrite references if the name was .png
    let st1 := { st with staticImages := optimize_image_fs st.staticImages name }
    if strEndsWith (toLowerStr file) dotPngLit then
      let newName := splitextBase file ++ dotJpgLit
      let pr := rewrite_usages st1.files st1.failingPaths file newName found
      ({ st1 with files := pr.1 }, pr.2)
    else (st1, none)

/-- The extension allow-list of the traversal (line 61), checked with
`file.lower().endswith(ext)`. -/
def isSupportedImage (lowerName : Str) : Bool :=
  strEndsWith lowerName dotPngLit || strEndsWith lowerName dotJpegLit ||
    strEndsWith lowerName dotJpgLit

/-- One iteration of the traversal loop (lines 63-112): skip hidden files,
skip unsupported extensions, and run the guarded per-image body; an
exception from the body is caught and appended to the per-course log, and
the loop moves on. -/
def process_image_file (st : CourseState) (name : Str) : CourseState :=
  if startsWithDot (toLowerStr name) then st
  else if isSupportedImage (toLowerStr name) then
    let pr := try_optimize_one st name
    match pr.2 with
    | none => pr.1
    | some e => { pr.1 with errorLog := pr.1.errorLog ++ [e] }
  else st

/-- Embeds `traverse_image_files` (lines 59-112) over the walk-order list
of static file names (the walk snapshots the directory listing before the
loop body runs, so files created or removed by the body do not change the
iteration). -/
def traverse_image_files (st : CourseState) (names : List Str) : CourseState :=
  names.foldl process_image_file st

/-- Embeds the per-course pipeline body of `process_tar_file`
(lines 134-144): traverse the static images, then apply the four Asset
Registry normalization passes and the single Policy Document pass, in
source order and unconditionally.  (Archive extraction and repackaging
bracket this in the source and are modelled separately.) -/
def process_tar_file (st : CourseState) : CourseState :=
  let st1 := traverse_image_files st (st.staticImages.map Prod.fst)
  let a1 := find_and_replace_in_assets st1.assets imagePngLit imageJpegLit
  let a2 := find_and_replace_in_assets a1 dashPngJpgLit dotJpgLit
  let a3 := find_and_replace_in_assets a2 dotPngLit dotJpgLit
  let a4 := replace_json_keys a3 dotPngLit dotJpgLit
  let p1 := find_and_replace_in_json st1.policy dotPngLit dotJpgLit
  { st1 with assets := a4, policy := p1 }

/-! ## Archive extraction (`utils/tar_handlers.py`, `extract_tar_gz`) -/

/-- The failure modes of one extraction attempt. -/
structure TarExtractInput where
  sourceExists : Bool
  archiveWellFormed : Bool
  entriesWritable : Bool
  deriving DecidableEq

/-- The error taxonomy the spec assigns to `unpack`. -/
inductive ExtractionError where
  | fileNotFound
  | tarError
  | osError
  deriving DecidableEq

/-- Observable outcome of `extract_tar_gz`: whether the archive contents
were extracted, and the error written to the log, if any. -/
structure ExtractOutcome where
  extracted : Bool
  loggedError : Option ExtractionError
  deriving DecidableEq

/-- Embeds `extract_tar_gz` (tar_handlers.py, lines 26-40).  The body
raises `FileNotFoundError` for a missing source, and `tarfile.TarError` or
`OSError` can be raised while opening or extracting — but the surrounding
`try`/`except` catches all three, logs them, and falls off the end of the
function.  The `Except` result type records what escapes to the caller:
the function always returns `Except.ok`. -/
def extract_tar_gz (inp : TarExtractInput) : Except ExtractionError ExtractOutcome :=
  Except.ok
    (if inp.sourceExists = false then
      { extracted := false, loggedError := some ExtractionError.fileNotFound }
    else if inp.archiveWellFormed = false then
      { extracted := false, loggedError := some ExtractionError.tarError }
    else if inp.entriesWritable = false then
      { extracted := false, loggedError := some ExtractionError.osError }
    else { extracted := true, loggedError := none })

/-! ## Specification-side predicates and observation helpers -/

/-- The characterization of scan hits stated by the spec for
`findReferences`: base name is not the Asset Registry file, is not hidden,
has an allow-listed text extension, is readable, and its content contains
the logical name case-insensitively.  (Spec-side definition, to be compared
with the source-side `search_image_in_files`.) -/
def searchSpecPred (image_name : Str) (e : FileEntry) : Bool :=
  !(toLowerStr e.name == assetsJsonLit) && !(startsWithDot (toLowerStr e.name)) &&
    isTextFileName (toLowerStr e.name) &&
    (match e.content with
     | none => false
     | some c => hasSubstring (toLowerStr c) (toLowerStr image_name))

/-- Net per-file effect of the reference-rewrite loop: a file whose path
was found by the Reference Index gets the literal replacement applied to
its content; every other file is untouched. -/
def refReplaceEntry (old nw : Str) (found : List Str) (e : FileEntry) : FileEntry :=
  if found.contains (entryPath e) then
    { e with content := e.content.map (listReplace old nw) }
  else e

/-- Round-half-up of the rational `a / b` (`b` positive), the reading of
the spec's `round(originalHeight × 1400/originalWidth)`.  For the
half-integer counterexample below, Python's banker's rounding agrees. -/
def roundHalfNat (a b : Nat) : Nat := (2 * a + b) / (2 * b)

/-- Content of the file stored at path `p`, if any. -/
def fileContentAt (st : CourseState) (p : Str) : Option Str :=
  (st.files.find? (fun e => entryPath e == p)).bind FileEntry.content

/-- The string value of the first Asset Registry entry, if any (used to
observe registry changes). -/
def firstAssetValue (st : CourseState) : Option Str :=
  match st.assets with
  | (_, Json.str s) :: _ => some s
  | _ => none

/-- A static image that a first pipeline run leaves behind in settled form:
a non-hidden name ending in `.jpg`, image data already carrying the fixed
transcoding policy (so re-transcoding is the identity), and at least one
reference to its resolved logical name in the course files. -/
def imageSettled (st : CourseState) (p : Str × ImageModel) : Bool :=
  strEndsWith p.1 dotJpgLit && !(startsWithDot (toLowerStr p.1)) &&
    (optimize_image p.2 == p.2) &&
    !(search_image_in_files (find_parent_key st.assets p.1) st.files).isEmpty

/-! ## Concrete fixtures for witnesses and counterexamples -/

def pngFmtLit : Str := "png".data

/-- A small PNG image as found in a course. -/
def pngSampleImg : ImageModel :=
  { width := 100, height := 50, format := pngFmtLit, stripped := false,
    progressive := false, quality := 92, sampling420 := false, dpi := 96,
    dctFloat := false }

/-- An image that already carries the fixed transcoding policy. -/
def jpgSettledImg : ImageModel :=
  { width := 800, height := 600, format := jpegFmtLit, stripped := true,
    progressive := true, quality := 80, sampling420 := true, dpi := 72,
    dctFloat := true }

/-- A wide image whose exact aspect-ratio height lands on a half-integer
(2800 wide, 3 high: 3 · 1400/2800 = 1.5). -/
def wideImg : ImageModel :=
  { width := 2800, height := 3, format := pngFmtLit, stripped := false,
    progressive := false, quality := 92, sampling420 := false, dpi := 96,
    dctFloat := false }

/-- A square image one pixel over the downscale boundary. -/
def img1401 : ImageModel :=
  { width := 1401, height := 1401, format := pngFmtLit, stripped := false,
    progressive := false, quality := 92, sampling420 := false, dpi := 96,
    dctFloat := false }

def photoKeyLit : Str := "photo@2x.jpg".data

def photoDiskLit : Str := "photo_2x.jpg".data

/-- A registry containing the display-name key `photo@2x.jpg`. -/
def registryPhoto : List (Str × Json) := [(photoKeyLit, Json.null)]

def photoPngLit : Str := "photo.png".data

def contentDirLit : Str := "content/".data

def pageHtmlLit : Str := "page.html".data

/-- A content file referencing `photo.png` only in upper case. -/
def pageEntryUpper : FileEntry :=
  { dir := contentDirLit, name := pageHtmlLit, content := some ( "see PHOTO.PNG".data) }

/-- A content file referencing `photo.png` in its exact case. -/
def pageEntryExact : FileEntry :=
  { dir := contentDirLit, name := pageHtmlLit, content := some ( "see photo.png here".data) }

/-- Course with `photo.png` referenced only in a different letter case. -/
def stCaseMismatch : CourseState :=
  { staticImages := [(photoPngLit, pngSampleImg)], files := [pageEntryUpper],
    assets := [(photoPngLit, Json.str imagePngLit)], policy := Json.null,
    failingPaths := [], errorLog := [] }

/-- Course with `photo.png` referenced in its exact case. -/
def stExactRef : CourseState :=
  { staticImages := [(photoPngLit, pngSampleImg)], files := [pageEntryExact],
    assets := [(photoPngLit, Json.str imagePngLit)], policy := Json.null,
    failingPaths := [], errorLog := [] }

def bannerLit : Str := "banner.png".data

/-- Course with an image `banner.png` that no content file references. -/
def stUnusedBanner : CourseState :=
  { staticImages := [(bannerLit, pngSampleImg)],
    files := [{ dir := contentDirLit, name := pageHtmlLit,
                content := some ( "no images here".data) }],
    assets := [(bannerLit, Json.str imagePngLit)], policy := Json.null,
    failingPaths := [], errorLog := [] }

def aPngLit : Str := "a.png".data

def bJpgLit : Str := "b.jpg".data

/-- Course in which removing the unused image `a.png` raises an `OSError`. -/
def stRemoveFails : CourseState :=
  { staticImages := [(aPngLit, pngSampleImg)], files := [], assets := [],
    policy := Json.null, failingPaths := [aPngLit], errorLog := [] }

/-- Course whose Asset Registry holds the value `-png-png.jpg`, on which
the `-png.jpg` → `.jpg` value pass is not stable across runs. -/
def stUnstableMeta : CourseState :=
  { staticImages := [], files := [],
    assets := [( "course_image".data, Json.str ( "-png-png.jpg".data))],
    policy := Json.null, failingPaths := [], errorLog := [] }

def photoJpgLit : Str := "photo.jpg".data

/-- Course left behind by a first run: one settled `.jpg` image with an
exact reference. -/
def stSettled : CourseState :=
  { staticImages := [(photoJpgLit, jpgSettledImg)],
    files := [{ dir := contentDirLit, name := pageHtmlLit,
                content := some ( "see photo.jpg".data) }],
    assets := [(photoJpgLit, Json.str imageJpegLit)], policy := Json.null,
    failingPaths := [], errorLog := [] }

/-! ## Helper lemmas -/

theorem replGo_skip (old new : Str) : ∀ (t : Str) (k : Nat),
    replGo old new k t = replGo old new 0 (t.drop k) := by
  intro t
  induction t with
  | nil => intro k; cases k <;> rfl
  | cons c t ih =>
    intro k
    cases k with
    | zero => rfl
    | succ j => simpa [replGo] using ih j

theorem listReplace_cons (old new : Str) (c : Char) (t : Str) :
    listReplace old new (c :: t) =
      if old ≠ [] ∧ old.isPrefixOf (c :: t) = true then
        new ++ listReplace old new (t.drop (old.length - 1))
      else
        c :: listReplace old new t := by
  show replGo old new 0 (c :: t) = _
  rw [replGo]
  split
  · rw [replGo_skip]
    rfl
  · rfl

theorem isPrefixOf_self_append (s x : Str) : s.isPrefixOf (s ++ x) = true := by
  rw [List.isPrefixOf_iff_prefix]
  exact List.prefix_append s x

theorem hasSubstring_self_append (s x : Str) : hasSubstring (s ++ x) s = true := by
  cases s with
  | nil =>
    cases x with
    | nil => rfl
    | cons c t => simp [hasSubstring, List.isPrefixOf]
  | cons a s' =>
    show hasSubstring (a :: (s' ++ x)) (a :: s') = true
    rw [hasSubstring]
    rw [show a :: (s' ++ x) = (a :: s') ++ x from rfl]
    rw [isPrefixOf_self_append]
    rfl

theorem listReplace_of_not_sub (old new : Str) :
    ∀ c : Str, hasSubstring c old = false → listReplace old new c = c := by
  intro c
  induction c with
  | nil => intro _; rfl
  | cons ch t ih =>
    intro h
    rw [hasSubstring, Bool.or_eq_false_iff] at h
    rw [listReplace_cons, if_neg (by simp [h.1]), ih h.2]

theorem sub_new_of_listReplace (old new : Str) (hold : old ≠ []) :
    ∀ c : Str, hasSubstring c old = true → hasSubstring (listReplace old new c) new = true := by
  intro c
  induction c with
  | nil =>
    intro h
    rw [hasSubstring, List.isEmpty_iff] at h
    exact absurd h hold
  | cons ch t ih =>
    intro h
    rw [hasSubstring, Bool.or_eq_true] at h
    rw [listReplace_cons]
    by_cases hpre : old.isPrefixOf (ch :: t) = true
    · rw [if_pos ⟨hold, hpre⟩]
      exact hasSubstring_self_append new _
    · rw [if_neg (by simp [hpre])]
      have h2 : hasSubstring t old = true := by
        rcases h with h | h
        · exact absurd h hpre
        · exact h
      rw [hasSubstring, ih h2, Bool.or_true]

theorem foldl_fixed {α β : Type} (f : β → α → β) (b : β) :
    ∀ l : List α, (∀ a ∈ l, f b a = b) → l.foldl f b = b := by
  intro l
  induction l with
  | nil => intro _; rfl
  | cons a l ih =>
    intro h
    rw [List.foldl_cons, h a (List.mem_cons_self a l)]
    exact ih (fun x hx => h x (List.mem_cons_of_mem a hx))

theorem dictLookup_delete (m : List (Str × Json)) (k : Str) :
    dictLookup (delete_key_from_json m k) k = none := by
  unfold delete_key_from_json
  by_cases h : dictHasKey m k
  · rw [if_pos h]
    unfold dictLookup
    rw [List.find?_eq_none.mpr, Option.map_none']
    intro x hx
    have := (List.mem_filter.mp hx).2
    simp only [bne_iff_ne, ne_eq] at this
    simp [this]
  · rw [if_neg h]
    unfold dictLookup
    rw [List.find?_eq_none.mpr, Option.map_none']
    intro x hx
    unfold dictHasKey at h
    rw [Bool.not_eq_true, List.any_eq_false] at h
    exact fun hcontra => (h x hx) hcontra

/-! ## Claims -/

/-- C10: `replace_json_keys` does not preserve the number of entries of a
mapping: the sibling keys `a.png` and `a.jpg`, which become equal under the
rename `.png` → `.jpg`, are merged, and the value of `a.png` is silently
lost (the later comprehension item wins). -/
theorem replace_json_keys_merges_colliding_keys :
    replace_json_keys
        [( "a.png".data, Json.str ( "1".data)), ( "a.jpg".data, Json.str ( "2".data))]
        dotPngLit dotJpgLit = [( "a.jpg".data, Json.str ( "2".data))] ∧
      ([( "a.png".data, Json.str ( "1".data)), ( "a.jpg".data, Json.str ( "2".data))] :
        List (Str × Json)).length = 2 :=
  ⟨rfl, rfl⟩

/-- C7 counterexample: on a missing archive, `extract_tar_gz` returns
normally (`Except.ok`, with the error only logged) instead of raising an
`ExtractionError` to its caller. -/
theorem extract_tar_gz_missing_archive_returns_ok :
    extract_tar_gz
        { sourceExists := false, archiveWellFormed := true, entriesWritable := true } =
      Except.ok { extracted := false, loggedError := some ExtractionError.fileNotFound } :=
  rfl

/-- C7 amended: for every archive condition — missing, malformed, or
unwritable entries — `extract_tar_gz` catches the error, logs it, and
returns normally, so the enclosing course job continues instead of
aborting; extraction succeeds exactly in the error-free case. -/
theorem extract_tar_gz_catches_all_errors (inp : TarExtractInput) :
    (extract_tar_gz inp).isOk = true ∧
    (inp.sourceExists = false →
      extract_tar_gz inp =
        Except.ok { extracted := false, loggedError := some ExtractionError.fileNotFound }) ∧
    (inp.sourceExists = true → inp.archiveWellFormed = false →
      extract_tar_gz inp =
        Except.ok { extracted := false, loggedError := some ExtractionError.tarError }) ∧
    (inp.sourceExists = true → inp.archiveWellFormed = true → inp.entriesWritable = false →
      extract_tar_gz inp =
        Except.ok { extracted := false, loggedError := some ExtractionError.osError }) ∧
    (inp.sourceExists = true → inp.archiveWellFormed = true → inp.entriesWritable = true →
      extract_tar_gz inp = Except.ok { extracted := true, loggedError := none }) := by
  obtain ⟨a, b, c⟩ := inp
  cases a <;> cases b <;> cases c <;> simp [extract_tar_gz, Except.isOk, Except.toBool]

/-- C7 amended witness: a malformed archive is logged and the function
still returns normally. -/
theorem extract_tar_gz_catches_all_errors_witness :
    extract_tar_gz
        { sourceExists := true, archiveWellFormed := false, entriesWritable := true } =
      Except.ok { extracted := false, loggedError := some ExtractionError.tarError } :=
  (extract_tar_gz_catches_all_errors
    { sourceExists := true, archiveWellFormed := false, entriesWritable := true }).2.2.1 rfl rfl

/-- C2 counterexample: at width 2800 and height 3 the double product is
exactly 1.5 (0.5 and 1.5 are representable, so the float path hits this
very value); the code truncates (`int`) to 1, while the claim's rounding
gives 2 — under round-half-up and under Python banker's rounding alike. -/
theorem optimize_image_truncates_not_rounds :
    (optimize_image wideImg).height ≠ roundHalfNat (wideImg.height * 1400) wideImg.width := by
  decide

/-- C2 amended: `optimize_image` leaves pixel dimensions unchanged when the
width is at most 1400, and otherwise resizes to width exactly 1400 with
the new height the `int`-truncation (not rounding) of the double product
height · (1400 / width), modelled bit-exactly by `pyResizeHeight`; the
double product can even fall below the exact quotient's floor (at
1580 × 553 the code yields 489 where the exact floor is 490 — see the
witness). -/
theorem optimize_image_dimensions (img : ImageModel) :
    (img.width ≤ 1400 →
      (optimize_image img).width = img.width ∧ (optimize_image img).height = img.height) ∧
    (1400 < img.width →
      (optimize_image img).width = 1400 ∧
        (optimize_image img).height = pyResizeHeight img.height img.width) := by
  constructor
  · intro h
    simp only [optimize_image]
    rw [if_neg (by simp; omega)]
    exact ⟨rfl, rfl⟩
  · intro h
    simp only [optimize_image]
    rw [if_pos (by simpa using h)]
    exact ⟨rfl, rfl⟩

/-- C2 amended witness: the boundary image of width 1401 is scaled to
exactly 1400 × 1400 (here the double truncation and the exact value
agree), while at 1580 × 553 the double truncation yields 489, one below
the exact floor 490. -/
theorem optimize_image_dimensions_witness :
    1400 < img1401.width ∧ (optimize_image img1401).width = 1400 ∧
      (optimize_image img1401).height = 1400 ∧
      pyResizeHeight 553 1580 = 489 ∧ (553 * 1400) / 1580 = 490 := by
  have h := (optimize_image_dimensions img1401).2 (by decide)
  refine ⟨by decide, h.1, ?_, by decide, by decide⟩
  rw [h.2]
  decide

/-- C6: after the traversal, `process_tar_file` applies exactly four
normalization passes to the Asset Registry, in source order — values
`image/png` → `image/jpeg`, values `-png.jpg` → `.jpg`, values
`.png` → `.jpg`, then keys `.png` → `.jpg` — and exactly one value pass
`.png` → `.jpg` to the Policy Document; all five run unconditionally (the
equations hold for every course state, including ones with no images),
and nothing else of the state changes after the traversal. -/
theorem process_tar_file_metadata_passes (st : CourseState) :
    (process_tar_file st).assets =
      replace_json_keys
        (find_and_replace_in_assets
          (find_and_replace_in_assets
            (find_and_replace_in_assets
              (traverse_image_files st (st.staticImages.map Prod.fst)).assets
              imagePngLit imageJpegLit)
            dashPngJpgLit dotJpgLit)
          dotPngLit dotJpgLit)
        dotPngLit dotJpgLit ∧
    (process_tar_file st).policy =
      find_and_replace_in_json
        (traverse_image_files st (st.staticImages.map Prod.fst)).policy
        dotPngLit dotJpgLit ∧
    (process_tar_file st).staticImages =
      (traverse_image_files st (st.staticImages.map Prod.fst)).staticImages ∧
    (process_tar_file st).files =
      (traverse_image_files st (st.staticImages.map Prod.fst)).files ∧
    (process_tar_file st).errorLog =
      (traverse_image_files st (st.staticImages.map Prod.fst)).errorLog :=
  ⟨rfl, rfl, rfl, rfl, rfl⟩

/-- C1: `find_parent_key` (modelled from the spec; absent from the
sources) returns a registry key whose `@` → `_` transform equals the
on-disk filename, with `@` intact, whenever such a key exists, and returns
the filename unchanged otherwise. -/
theorem find_parent_key_resolves (registry : List (Str × Json)) (file : Str) :
    ((∃ k ∈ registry.map Prod.fst, atToUnderscore k = file) →
      find_parent_key registry file ∈ registry.map Prod.fst ∧
        atToUnderscore (find_parent_key registry file) = file) ∧
    ((∀ k ∈ registry.map Prod.fst, atToUnderscore k ≠ file) →
      find_parent_key registry file = file) := by
  unfold find_parent_key
  cases hf : registry.find? (fun kv => atToUnderscore kv.1 == file) with
  | some kv =>
    have hmem := List.mem_of_find?_eq_some hf
    have hp := List.find?_some hf
    rw [beq_iff_eq] at hp
    refine ⟨fun _ => ⟨List.mem_map_of_mem Prod.fst hmem, hp⟩, fun hall => ?_⟩
    exact absurd hp (hall kv.1 (List.mem_map_of_mem Prod.fst hmem))
  | none =>
    rw [List.find?_eq_none] at hf
    constructor
    · rintro ⟨k, hk, hkeq⟩
      obtain ⟨p, hp, rfl⟩ := List.mem_map.mp hk
      exact absurd (beq_iff_eq.mpr hkeq) (hf p hp)
    · intro _
      rfl

/-- C1 witness: the registry key `photo@2x.jpg` is recovered, `@` intact,
from the on-disk name `photo_2x.jpg`. -/
theorem find_parent_key_resolves_witness :
    find_parent_key registryPhoto photoDiskLit = photoKeyLit ∧
      (find_parent_key registryPhoto photoDiskLit ∈ registryPhoto.map Prod.fst ∧
        atToUnderscore (find_parent_key registryPhoto photoDiskLit) = photoDiskLit) :=
  ⟨by rfl,
    (find_parent_key_resolves registryPhoto photoDiskLit).1
      ⟨photoKeyLit, by decide, by decide⟩⟩

theorem searchStep_eq (nm : Str) (acc : List Str) (e : FileEntry) :
    searchStep nm acc e =
      if searchSpecPred nm e = true then acc ++ [entryPath e] else acc := by
  unfold searchStep searchSpecPred
  cases hco : e.content with
  | none =>
    by_cases h1 : toLowerStr e.name == assetsJsonLit <;>
      by_cases h2 : startsWithDot (toLowerStr e.name) <;>
      by_cases h3 : isTextFileName (toLowerStr e.name) <;>
      simp [h1, h2, h3]
  | some c =>
    by_cases h1 : toLowerStr e.name == assetsJsonLit <;>
      by_cases h2 : startsWithDot (toLowerStr e.name) <;>
      by_cases h3 : isTextFileName (toLowerStr e.name) <;>
      by_cases h4 : hasSubstring (toLowerStr c) (toLowerStr nm) <;>
      simp [h1, h2, h3, h4]

/-- C5: the reference scan returns exactly the files that are not the
Asset Registry file, not hidden, on the text-format allow-list, readable,
and whose content contains the logical name case-insensitively — in walk
order; unreadable files are skipped rather than aborting the scan (they
simply fail `searchSpecPred`). -/
theorem search_image_in_files_spec (nm : Str) (files : List FileEntry) :
    search_image_in_files nm files = (files.filter (searchSpecPred nm)).map entryPath := by
  unfold search_image_in_files
  suffices h : ∀ acc, files.foldl (searchStep nm) acc =
      acc ++ (files.filter (searchSpecPred nm)).map entryPath by
    simpa using h []
  induction files with
  | nil => intro acc; simp
  | cons e fs ih =>
    intro acc
    rw [List.foldl_cons, ih, searchStep_eq]
    by_cases hp : searchSpecPred nm e = true
    · simp [List.filter_cons, hp, List.append_assoc]
    · simp [List.filter_cons, hp]

/-- C4: a processed image for which the Reference Index finds zero
referencing files is deleted from the static pool and its resolved key
is deleted from the Asset Registry (so neither survives to the output
archive; the later metadata passes do not touch the static pool). -/
theorem unused_image_removed (st : CourseState) (name : Str)
    (hhid : startsWithDot (toLowerStr name) = false)
    (hsup : isSupportedImage (toLowerStr name) = true)
    (hunused : (search_image_in_files (find_parent_key st.assets name) st.files).isEmpty = true)
    (hok : st.failingPaths.contains name = false) :
    (process_image_file st name).staticImages.find? (fun p => p.1 == name) = none ∧
      dictLookup (process_image_file st name).assets (find_parent_key st.assets name) = none := by
  have htry : try_optimize_one st name =
      ({ st with
          staticImages := st.staticImages.filter (fun p => p.1 != name),
          assets := delete_key_from_json st.assets (find_parent_key st.assets name) }, none) := by
    unfold try_optimize_one
    rw [if_pos hunused, if_neg (by simpa using hok)]
  have hpf : process_image_file st name =
      { st with
          staticImages := st.staticImages.filter (fun p => p.1 != name),
          assets := delete_key_from_json st.assets (find_parent_key st.assets name) } := by
    unfold process_image_file
    rw [if_neg (by simp [hhid]), if_pos hsup, htry]
  rw [hpf]
  constructor
  · rw [List.find?_eq_none]
    intro x hx
    have h2 := (List.mem_filter.mp hx).2
    simp only [bne_iff_ne, ne_eq, decide_eq_true_eq] at h2
    simp [h2]
  · exact dictLookup_delete st.assets (find_parent_key st.assets name)

/-- C4 witness: the unreferenced `banner.png` is removed from the pool and
its key vanishes from the registry. -/
theorem unused_image_removed_witness :
    (process_image_file stUnusedBanner bannerLit).staticImages.find?
        (fun p => p.1 == bannerLit) = none ∧
      dictLookup (process_image_file stUnusedBanner bannerLit).assets
        (find_parent_key stUnusedBanner.assets bannerLit) = none :=
  unused_image_removed stUnusedBanner bannerLit (by decide) (by decide) (by decide)
    (by decide)

/-- C8: an exception raised inside the per-image body is caught, appended
to the per-course log, and the traversal continues with the remaining
image files from the state the failed image left behind. -/
theorem per_image_error_isolated (st : CourseState) (name e : Str) (rest : List Str)
    (hhid : startsWithDot (toLowerStr name) = false)
    (hsup : isSupportedImage (toLowerStr name) = true)
    (herr : (try_optimize_one st name).2 = some e) :
    process_image_file st name =
      { (try_optimize_one st name).1 with
          errorLog := (try_optimize_one st name).1.errorLog ++ [e] } ∧
    traverse_image_files st (name :: rest) =
      traverse_image_files
        { (try_optimize_one st name).1 with
            errorLog := (try_optimize_one st name).1.errorLog ++ [e] } rest := by
  have hpf : process_image_file st name =
      { (try_optimize_one st name).1 with
          errorLog := (try_optimize_one st name).1.errorLog ++ [e] } := by
    unfold process_image_file
    rw [if_neg (by simp [hhid]), if_pos hsup]
    rcases hpr : try_optimize_one st name with ⟨st1, e2⟩
    rw [hpr] at herr
    simp only at herr
    rw [herr]
  exact ⟨hpf, by unfold traverse_image_files; rw [List.foldl_cons, hpf]⟩

/-- C8 witness: the failing removal of the unused `a.png` is logged and
the traversal goes on to process `b.jpg`. -/
theorem per_image_error_isolated_witness :
    traverse_image_files stRemoveFails [aPngLit, bJpgLit] =
      traverse_image_files
        { (try_optimize_one stRemoveFails aPngLit).1 with
            errorLog := (try_optimize_one stRemoveFails aPngLit).1.errorLog ++ [removeErrLit] }
        [bJpgLit] :=
  (per_image_error_isolated stRemoveFails aPngLit removeErrLit [bJpgLit]
    (by decide) (by decide) (by rfl)).2

theorem bool_ne_true {b : Bool} (h : b = false) : ¬ (b = true) := by
  rw [h]
  exact Bool.false_ne_true

theorem entryPath_update (a : FileEntry) (c : Option Str) :
    entryPath { a with content := c } = entryPath a := rfl

theorem contains_eq_false_of_not_mem {l : List Str} {a : Str} (h : a ∉ l) :
    l.contains a = false := by
  rw [Bool.eq_false_iff]
  intro hc
  rw [List.contains_iff_exists_mem_beq] at hc
  obtain ⟨b, hb, hab⟩ := hc
  rw [beq_iff_eq] at hab
  exact h (hab ▸ hb)

theorem rewrite_usages_spec (failing : List Str) (old new : Str) :
    ∀ (found : List Str) (files : List FileEntry),
      (∀ p ∈ found, failing.contains p = false) → found.Nodup →
      rewrite_usages files failing old new found =
        (files.map (refReplaceEntry old new found), none) := by
  intro found
  induction found with
  | nil =>
    intro files _ _
    unfold rewrite_usages
    have hid : files.map (refReplaceEntry old new []) = files := by
      calc files.map (refReplaceEntry old new [])
          = files.map id :=
            List.map_congr_left (fun a _ => by
              unfold refReplaceEntry
              rw [List.contains_nil, if_neg (bool_ne_true rfl)]
              rfl)
        _ = files := List.map_id files
    rw [hid]
  | cons p rest ih =>
    intro files hf hnd
    have hp : failing.contains p = false := hf p (List.mem_cons_self p rest)
    have hpnotin : p ∉ rest := (List.nodup_cons.mp hnd).1
    rw [rewrite_usages, if_neg (bool_ne_true hp),
      ih _ (fun q hq => hf q (List.mem_cons_of_mem p hq)) ((List.nodup_cons.mp hnd).2)]
    congr 1
    rw [List.map_map]
    apply List.map_congr_left
    intro a _
    simp only [Function.comp_apply]
    unfold refReplaceEntry
    by_cases hpe : entryPath a = p
    · have h1 : (entryPath a == p) = true := beq_iff_eq.mpr hpe
      have h2 : rest.contains (entryPath a) = false := by
        rw [hpe]; exact contains_eq_false_of_not_mem hpnotin
      rw [if_pos h1]
      rw [if_neg (bool_ne_true (by rw [entryPath_update]; exact h2))]
      rw [List.contains_cons, h1, Bool.true_or, if_pos rfl]
    · have h1 : (entryPath a == p) = false := by
        rw [beq_eq_false_iff_ne]; exact hpe
      rw [if_neg (bool_ne_true h1)]
      rw [List.contains_cons, h1, Bool.false_or]

/-- C3 counterexample: `photo.png` is referenced only as `PHOTO.PNG`; the
Reference Index finds the file (case-insensitive search), but the rewrite
is a case-sensitive literal replace, so after the per-image step the file
still reads `see PHOTO.PNG` and nowhere contains the new name
`photo.jpg`. -/
theorem rewrite_misses_differently_cased_reference :
    search_image_in_files (find_parent_key stCaseMismatch.assets photoPngLit)
        stCaseMismatch.files = [entryPath pageEntryUpper] ∧
    fileContentAt (process_image_file stCaseMismatch photoPngLit) (entryPath pageEntryUpper) =
      some ( "see PHOTO.PNG".data) ∧
    hasSubstring ( "see PHOTO.PNG".data) ( "photo.jpg".data) = false := by
  refine ⟨by rfl, by rfl, by decide⟩

/-- C3 amended: for a used image whose resolved name ends in `.png`, the
per-image step rewrites every referencing file by the literal,
case-sensitive Python `str.replace` of the old name with the new `.jpg`
name: occurrences in the exact case are replaced (any file containing the
old name in exact case contains the new name afterwards), while
occurrences in a different letter case are left unchanged, so the old
string may survive in such files. -/
theorem used_png_references_rewritten (st : CourseState) (name : Str)
    (hused : (search_image_in_files (find_parent_key st.assets name) st.files).isEmpty = false)
    (hpng : strEndsWith (toLowerStr (find_parent_key st.assets name)) dotPngLit = true)
    (hok : ∀ p ∈ search_image_in_files (find_parent_key st.assets name) st.files,
        st.failingPaths.contains p = false)
    (hnd : (search_image_in_files (find_parent_key st.assets name) st.files).Nodup) :
    (try_optimize_one st name).2 = none ∧
    (try_optimize_one st name).1.files =
      st.files.map
        (refReplaceEntry (find_parent_key st.assets name)
          (splitextBase (find_parent_key st.assets name) ++ dotJpgLit)
          (search_image_in_files (find_parent_key st.assets name) st.files)) ∧
    (∀ c : Str, hasSubstring c (find_parent_key st.assets name) = true →
      hasSubstring
        (listReplace (find_parent_key st.assets name)
          (splitextBase (find_parent_key st.assets name) ++ dotJpgLit) c)
        (splitextBase (find_parent_key st.assets name) ++ dotJpgLit) = true) ∧
    (∀ c : Str, hasSubstring c (find_parent_key st.assets name) = false →
      listReplace (find_parent_key st.assets name)
        (splitextBase (find_parent_key st.assets name) ++ dotJpgLit) c = c) := by
  have hne : find_parent_key st.assets name ≠ [] := by
    intro hc
    rw [hc] at hpng
    exact absurd hpng (by decide)
  have htry : try_optimize_one st name =
      ({ st with
          staticImages := optimize_image_fs st.staticImages name,
          files := st.files.map
            (refReplaceEntry (find_parent_key st.assets name)
              (splitextBase (find_parent_key st.assets name) ++ dotJpgLit)
              (search_image_in_files (find_parent_key st.assets name) st.files)) }, none) := by
    unfold try_optimize_one
    rw [if_neg (bool_ne_true hused), if_pos hpng]
    dsimp only
    rw [rewrite_usages_spec st.failingPaths (find_parent_key st.assets name)
        (splitextBase (find_parent_key st.assets name) ++ dotJpgLit)
        (search_image_in_files (find_parent_key st.assets name) st.files) st.files hok hnd]
  refine ⟨by rw [htry], by rw [htry],
    fun c hc => sub_new_of_listReplace _ _ hne c hc,
    fun c hc => listReplace_of_not_sub _ _ c hc⟩

/-- C3 amended witness: with the exact-case reference `see photo.png here`,
the per-image step rewrites the file to `see photo.jpg here`. -/
theorem used_png_references_rewritten_witness :
    (try_optimize_one stExactRef photoPngLit).2 = none ∧
      fileContentAt (try_optimize_one stExactRef photoPngLit).1
        (entryPath pageEntryExact) = some ( "see photo.jpg here".data) := by
  have h := used_png_references_rewritten stExactRef photoPngLit
    (by decide) (by decide) (by decide) (by decide)
  refine ⟨h.1, ?_⟩
  have hf := h.2.1
  unfold fileContentAt
  rw [hf]
  rfl

theorem suffix_eq_of_length {s1 s2 l : Str} (h1 : s1 <:+ l) (h2 : s2 <:+ l)
    (hl : s1.length = s2.length) : s1 = s2 := by
  obtain ⟨t1, ht1⟩ := h1
  obtain ⟨t2, ht2⟩ := h2
  have h := ht1.trans ht2.symm
  exact (List.append_inj' h hl).2

theorem strEndsWith_map (f : Char → Char) {s suf : Str} (h : strEndsWith s suf = true) :
    strEndsWith (s.map f) (suf.map f) = true := by
  rw [strEndsWith, List.isSuffixOf_iff_suffix] at h ⊢
  exact h.map f

theorem map_eq_four {f : Char → Char} {l : Str} {a b c d : Char}
    (h : l.map f = [a, b, c, d]) :
    ∃ w x y z, l = [w, x, y, z] ∧ f w = a ∧ f x = b ∧ f y = c ∧ f z = d := by
  cases l with
  | nil => simp at h
  | cons w l1 =>
    cases l1 with
    | nil => simp at h
    | cons x l2 =>
      cases l2 with
      | nil => simp at h
      | cons y l3 =>
        cases l3 with
        | nil => simp at h
        | cons z l4 =>
          cases l4 with
          | cons v r => simp at h
          | nil =>
            simp only [List.map_cons, List.map_nil, List.cons.injEq, and_true] at h
            exact ⟨w, x, y, z, rfl, h.1, h.2.1, h.2.2.1, h.2.2.2⟩

theorem resolved_not_png_of_jpg (assets : List (Str × Json)) (name : Str)
    (h : strEndsWith name dotJpgLit = true) :
    strEndsWith (toLowerStr (find_parent_key assets name)) dotPngLit = false := by
  unfold find_parent_key
  cases hf : assets.find? (fun kv => atToUnderscore kv.1 == name) with
  | none =>
    by_contra hc
    rw [Bool.not_eq_false] at hc
    have hj : strEndsWith (toLowerStr name) dotJpgLit = true := by
      have hm := strEndsWith_map Char.toLower h
      have hlit : dotJpgLit.map Char.toLower = dotJpgLit := by decide
      rw [hlit] at hm
      exact hm
    rw [strEndsWith, List.isSuffixOf_iff_suffix] at hc hj
    exact absurd (suffix_eq_of_length hc hj (by decide)) (by decide)
  | some kv =>
    have hp := List.find?_some hf
    rw [beq_iff_eq] at hp
    by_contra hc
    rw [Bool.not_eq_false, strEndsWith, List.isSuffixOf_iff_suffix] at hc
    obtain ⟨t, ht⟩ := hc
    have hsplit : kv.1.map Char.toLower = t ++ dotPngLit := ht.symm
    rw [List.map_eq_append_iff] at hsplit
    obtain ⟨l₁, l₂, hkv, _, hml⟩ := hsplit
    have hml4 : l₂.map Char.toLower = ['.', 'p', 'n', 'g'] := hml
    obtain ⟨w, x, y, z, hl2, _, hx, _, _⟩ := map_eq_four hml4
    have hname : atToUnderscore l₁ ++ atToUnderscore l₂ = name := by
      rw [← hp, hkv]
      unfold atToUnderscore
      rw [List.map_append]
    have hsuf : atToUnderscore l₂ <:+ name := ⟨atToUnderscore l₁, hname⟩
    have hjp : dotJpgLit <:+ name := by
      rw [strEndsWith, List.isSuffixOf_iff_suffix] at h
      exact h
    have heq : atToUnderscore l₂ = dotJpgLit :=
      suffix_eq_of_length hsuf hjp (by rw [hl2]; rfl)
    rw [hl2] at heq
    have heq4 : atToUnderscore [w, x, y, z] = ['.', 'j', 'p', 'g'] := heq
    unfold atToUnderscore at heq4
    simp only [List.map_cons, List.map_nil, List.cons.injEq, and_true] at heq4
    have hx2 := heq4.2.1
    by_cases hat : (x == '@') = true
    · rw [if_pos hat] at hx2
      exact absurd hx2 (by decide)
    · rw [if_neg hat] at hx2
      rw [hx2] at hx
      exact absurd hx (by decide)

theorem splitextBase_append_jpg (x : Str) : splitextBase (x ++ dotJpgLit) = x := by
  unfold splitextBase
  have hrev : (x ++ dotJpgLit).reverse = ['g', 'p', 'j', '.'] ++ x.reverse := by
    rw [List.reverse_append]
    rfl
  rw [hrev]
  have hany : (['g', 'p', 'j', '.'] ++ x.reverse).any (fun c => c == '.') = true := by
    rw [List.any_append]
    have h1 : (['g', 'p', 'j', '.'] : Str).any (fun c => c == '.') = true := by decide
    rw [h1, Bool.true_or]
  rw [if_pos hany]
  have hdw : (['g', 'p', 'j', '.'] ++ x.reverse).dropWhile (fun c => c != '.') =
      ['.'] ++ x.reverse := by
    rw [List.dropWhile_append]
    have h2 : (['g', 'p', 'j', '.'] : Str).dropWhile (fun c => c != '.') = ['.'] := by decide
    rw [h2]
    rfl
  rw [hdw]
  exact List.reverse_reverse x

theorem nodupKeys_eq {l : List (Str × ImageModel)} (hnd : (l.map Prod.fst).Nodup) :
    ∀ r ∈ l, ∀ q ∈ l, r.1 = q.1 → r = q := by
  induction l with
  | nil =>
    intro r hr
    exact absurd hr (List.not_mem_nil r)
  | cons a t ih =>
    rw [List.map_cons, List.nodup_cons] at hnd
    intro r hr q hq heq
    rcases List.mem_cons.mp hr with rfl | hr2
    · rcases List.mem_cons.mp hq with rfl | hq2
      · rfl
      · exact absurd (by rw [heq]; exact List.mem_map_of_mem Prod.fst hq2) hnd.1
    · rcases List.mem_cons.mp hq with rfl | hq2
      · exact absurd (by rw [← heq]; exact List.mem_map_of_mem Prod.fst hr2) hnd.1
      · exact ih hnd.2 r hr2 q hq2 heq

theorem lower_endsWith_jpg {name : Str} (hjpg : strEndsWith name dotJpgLit = true) :
    strEndsWith (toLowerStr name) dotJpgLit = true := by
  have hm := strEndsWith_map Char.toLower hjpg
  have hl : dotJpgLit.map Char.toLower = dotJpgLit := by decide
  rwa [hl] at hm

theorem optimize_image_fs_settled (images : List (Str × ImageModel)) (name : Str)
    (hnd : (images.map Prod.fst).Nodup)
    (hjpg : strEndsWith name dotJpgLit = true)
    (hopt : ∀ q ∈ images, q.1 = name → optimize_image q.2 = q.2) :
    optimize_image_fs images name = images := by
  unfold optimize_image_fs
  cases hf : images.find? (fun p => p.1 == name) with
  | none => rfl
  | some q =>
    have hqmem := List.mem_of_find?_eq_some hf
    have hq1 : q.1 = name := by
      have hb := List.find?_some hf
      exact beq_iff_eq.mp hb
    obtain ⟨u, hu⟩ : ∃ t, t ++ dotJpgLit = name := by
      rw [strEndsWith, List.isSuffixOf_iff_suffix] at hjpg
      exact hjpg
    have hout : splitextBase name ++ dotJpgLit = name := by
      rw [← hu, splitextBase_append_jpg]
    dsimp only
    rw [hout]
    have hany : images.any (fun p => p.1 == name) = true :=
      List.any_eq_true.mpr ⟨q, hqmem, beq_iff_eq.mpr hq1⟩
    rw [if_pos hany]
    have hmap : images.map
        (fun p => if p.1 == name then (p.1, optimize_image q.2) else p) = images := by
      calc images.map (fun p => if p.1 == name then (p.1, optimize_image q.2) else p)
          = images.map id := by
            apply List.map_congr_left
            intro r hr
            by_cases hrq : (r.1 == name) = true
            · rw [if_pos hrq]
              have hreq : r = q :=
                nodupKeys_eq hnd r hr q hqmem (by rw [beq_iff_eq.mp hrq, hq1])
              rw [hreq, hopt q hqmem hq1]
              rfl
            · rw [if_neg hrq]
              rfl
        _ = images := List.map_id images
    rw [hmap]
    rw [if_pos (by rw [lower_endsWith_jpg hjpg, Bool.true_or])]

/-- C9 counterexample: on a course whose Asset Registry holds the value
`-png-png.jpg` (and no images at all), the first pipeline run rewrites it
to `-png.jpg` and a second run on that output rewrites it again to
`.jpg` — the pipeline is not idempotent. -/
theorem pipeline_second_run_changes_state :
    process_tar_file (process_tar_file stUnstableMeta) ≠ process_tar_file stUnstableMeta :=
  fun h => absurd (congrArg firstAssetValue h) (by decide)

/-- C9 amended: the pipeline is not idempotent in general (see the
counterexample), but the per-image traversal is: on a course state whose
static images all carry distinct non-hidden `.jpg` names, already
normalized image data, and at least one reference to their resolved names,
the traversal converts nothing, deletes nothing, and changes no reference
string — it is the identity.  (Running the whole pipeline again still
reapplies the metadata passes unconditionally, and those passes can change
values again, as the counterexample shows.) -/
theorem traverse_settled_noop (st : CourseState)
    (hnd : (st.staticImages.map Prod.fst).Nodup)
    (hall : ∀ p ∈ st.staticImages, imageSettled st p = true) :
    traverse_image_files st (st.staticImages.map Prod.fst) = st := by
  unfold traverse_image_files
  apply foldl_fixed
  intro name hname
  obtain ⟨p, hpmem, hpeq⟩ := List.mem_map.mp hname
  subst hpeq
  have hset := hall p hpmem
  unfold imageSettled at hset
  rw [Bool.and_eq_true, Bool.and_eq_true, Bool.and_eq_true] at hset
  obtain ⟨⟨⟨hjpg, hnh⟩, hopt⟩, hused⟩ := hset
  have hnh' : startsWithDot (toLowerStr p.1) = false := by
    rwa [Bool.not_eq_true'] at hnh
  have hused' :
      (search_image_in_files (find_parent_key st.assets p.1) st.files).isEmpty = false := by
    rwa [Bool.not_eq_true'] at hused
  have hsup : isSupportedImage (toLowerStr p.1) = true := by
    unfold isSupportedImage
    rw [lower_endsWith_jpg hjpg, Bool.or_true]
  unfold process_image_file
  rw [if_neg (bool_ne_true hnh'), if_pos hsup]
  have htry : try_optimize_one st p.1 = (st, none) := by
    unfold try_optimize_one
    dsimp only
    rw [if_neg (bool_ne_true hused')]
    have hfs : optimize_image_fs st.staticImages p.1 = st.staticImages := by
      apply optimize_image_fs_settled st.staticImages p.1 hnd hjpg
      intro q hq hq1
      have hsetq := hall q hq
      unfold imageSettled at hsetq
      rw [Bool.and_eq_true, Bool.and_eq_true, Bool.and_eq_true] at hsetq
      exact beq_iff_eq.mp hsetq.1.2
    rw [hfs]
    rw [if_neg (bool_ne_true (resolved_not_png_of_jpg st.assets p.1 hjpg))]
  rw [htry]

/-- C9 amended witness: a settled one-image course is left unchanged by a
second traversal. -/
theorem traverse_settled_noop_witness :
    traverse_image_files stSettled (stSettled.staticImages.map Prod.fst) = stSettled :=
  traverse_settled_noop stSettled (by decide) (by decide)

end CourseImages
